import Mathlib

/-!
Verification of the Agenda subsystem of the glados-planner repository.

The development shallowly embeds the Agenda frontend code (navigation hook,
time and energy utilities, API adapter, state hook) and, for the engine
components that exist only as boundary contracts in the repository slice
(conflict detector, intent processor, summary projector, reallocation
planner), models them from the specification text.
-/

namespace Glados

/-! ### Calendar dates and temporal navigation (useAgendaNavigation)

The navigation hook manipulates a JavaScript `Date` via
`setDate(getDate() ± k)` and `setMonth(getMonth() ± k)`.  We embed the
calendar component of a `Date` as a year/month/day triple (month is the
JavaScript 0-based index) and reproduce the normalization JavaScript
applies after `setDate`/`setMonth`.  The offsets used by the hook are
at most 7 days and 6 months, so normalization carries or borrows at most
one month, which the definitions below implement exactly. -/

/-- Calendar component of a JavaScript `Date`: year, 0-based month, 1-based day. -/
structure CDate where
  year : Nat
  month : Nat
  day : Nat
deriving DecidableEq, Repr

/-- Gregorian leap-year test, as the `Date` object implements it. -/
def isLeap (y : Nat) : Bool :=
  (y % 4 == 0 && y % 100 != 0) || (y % 400 == 0)

/-- Number of days in month `m` (0-based) of year `y`. -/
def monthLength (y m : Nat) : Nat :=
  if m = 1 then (if isLeap y then 29 else 28)
  else if m = 3 ∨ m = 5 ∨ m = 8 ∨ m = 10 then 30
  else 31

/-- Days of year `y` that precede month `m` (0-based). -/
def daysBeforeMonth (y m : Nat) : Nat :=
  (if m = 0 then 0 else if m = 1 then 31 else if m = 2 then 59
   else if m = 3 then 90 else if m = 4 then 120 else if m = 5 then 151
   else if m = 6 then 181 else if m = 7 then 212 else if m = 8 then 243
   else if m = 9 then 273 else if m = 10 then 304 else 334)
  + (if 2 ≤ m ∧ isLeap y then 1 else 0)

/-- Number of leap years strictly before year `y`. -/
def leapsBefore (y : Nat) : Nat :=
  (y + 3) / 4 - (y + 99) / 100 + (y + 399) / 400

/-- Linear day number of a calendar date; consecutive dates differ by one. -/
def toDayNumber (d : CDate) : Nat :=
  365 * d.year + leapsBefore d.year + daysBeforeMonth d.year d.month + d.day

/-- Month index of a date counted from year 0, so one calendar month is one unit. -/
def monthIdx (d : CDate) : Nat :=
  12 * d.year + d.month

/-- Well-formedness of a calendar date (month in range, day within the month). -/
def validDate (d : CDate) : Prop :=
  1 ≤ d.year ∧ d.month < 12 ∧ 1 ≤ d.day ∧ d.day ≤ monthLength d.year d.month

instance (d : CDate) : Decidable (validDate d) := by
  unfold validDate
  infer_instance

/-- JavaScript `d.setDate(d.getDate() + k)` on a valid date, for `k ≤ 21`:
the day overflows into the following month at most once. -/
def addDayN (d : CDate) (k : Nat) : CDate :=
  if d.day + k ≤ monthLength d.year d.month then ⟨d.year, d.month, d.day + k⟩
  else if d.month = 11 then ⟨d.year + 1, 0, d.day + k - monthLength d.year d.month⟩
  else ⟨d.year, d.month + 1, d.day + k - monthLength d.year d.month⟩

/-- JavaScript `d.setDate(d.getDate() - k)` on a valid date, for `k ≤ 28`:
the day borrows from the preceding month at most once. -/
def subDayN (d : CDate) (k : Nat) : CDate :=
  if k < d.day then ⟨d.year, d.month, d.day - k⟩
  else if d.month = 0 then ⟨d.year - 1, 11, monthLength (d.year - 1) 11 + d.day - k⟩
  else ⟨d.year, d.month - 1, monthLength d.year (d.month - 1) + d.day - k⟩

/-- Normalization JavaScript applies after `setMonth`: a day-of-month larger
than the target month rolls over into the following month. -/
def monthCarry (y m day : Nat) : CDate :=
  if day ≤ monthLength y m then ⟨y, m, day⟩
  else if m = 11 then ⟨y + 1, 0, day - monthLength y m⟩
  else ⟨y, m + 1, day - monthLength y m⟩

/-- JavaScript `d.setMonth(d.getMonth() + k)` for `k ≤ 12` on a valid date. -/
def addMonthsJS (d : CDate) (k : Nat) : CDate :=
  if d.month + k < 12 then monthCarry d.year (d.month + k) d.day
  else monthCarry (d.year + 1) (d.month + k - 12) d.day

/-- JavaScript `d.setMonth(d.getMonth() - k)` for `k ≤ 12` on a valid date. -/
def subMonthsJS (d : CDate) (k : Nat) : CDate :=
  if k ≤ d.month then monthCarry d.year (d.month - k) d.day
  else monthCarry (d.year - 1) (d.month + 12 - k) d.day

/-- View modes of the Agenda (contracts/agenda.ts `AgendaViewMode`). -/
inductive AgendaViewMode
  | daily
  | weekly
  | monthly
  | semester
deriving DecidableEq, Repr

/-- Forward navigation of useAgendaNavigation: the `next` callback. -/
def next (d : CDate) : AgendaViewMode → CDate
  | .daily => addDayN d 1
  | .weekly => addDayN d 7
  | .monthly => addMonthsJS d 1
  | .semester => addMonthsJS d 6

/-- Backward navigation of useAgendaNavigation: the `previous` callback. -/
def previous (d : CDate) : AgendaViewMode → CDate
  | .daily => subDayN d 1
  | .weekly => subDayN d 7
  | .monthly => subMonthsJS d 1
  | .semester => subMonthsJS d 6

theorem monthLength_ge (y m : Nat) : 28 ≤ monthLength y m := by
  unfold monthLength
  split_ifs <;> omega

theorem monthLength_le (y m : Nat) : monthLength y m ≤ 31 := by
  unfold monthLength
  split_ifs <;> omega

theorem isLeap_iff (y : Nat) :
    isLeap y = true ↔ (y % 4 = 0 ∧ ¬ y % 100 = 0) ∨ y % 400 = 0 := by
  simp [isLeap]

theorem leapsBefore_succ (y : Nat) :
    leapsBefore (y + 1) = leapsBefore y + (if isLeap y then 1 else 0) := by
  by_cases h : isLeap y = true
  · have hc := (isLeap_iff y).mp h
    rw [if_pos h]
    unfold leapsBefore
    omega
  · have hc : ¬((y % 4 = 0 ∧ ¬ y % 100 = 0) ∨ y % 400 = 0) :=
      fun hc => h ((isLeap_iff y).mpr hc)
    rw [if_neg h]
    unfold leapsBefore
    omega

theorem daysBeforeMonth_succ (y m : Nat) (h : m ≤ 10) :
    daysBeforeMonth y (m + 1) = daysBeforeMonth y m + monthLength y m := by
  interval_cases m <;> by_cases hL : isLeap y = true <;>
    simp [daysBeforeMonth, monthLength, hL]

theorem daysBeforeMonth_last (y : Nat) :
    daysBeforeMonth y 11 + 31 = 365 + (if isLeap y then 1 else 0) := by
  by_cases hL : isLeap y = true <;> simp [daysBeforeMonth, hL]

theorem toDayNumber_addDayN (d : CDate) (k : Nat) (hv : validDate d) :
    toDayNumber (addDayN d k) = toDayNumber d + k := by
  obtain ⟨hy, hm, hd1, hd2⟩ := hv
  unfold addDayN
  split_ifs with h1 h2
  · simp [toDayNumber]
    omega
  · have hlast := daysBeforeMonth_last d.year
    have hsucc := leapsBefore_succ d.year
    have hml : monthLength d.year 11 = 31 := by simp [monthLength]
    simp only [toDayNumber, h2] at *
    simp only [daysBeforeMonth]
    by_cases hL : isLeap d.year = true <;> simp [hL] at hlast hsucc ⊢ <;> omega
  · have hstep := daysBeforeMonth_succ d.year d.month (by omega)
    simp only [toDayNumber]
    omega

theorem toDayNumber_subDayN (d : CDate) (k : Nat) (hv : validDate d) (hk : k ≤ 28) :
    toDayNumber (subDayN d k) + k = toDayNumber d := by
  obtain ⟨hy, hm, hd1, hd2⟩ := hv
  unfold subDayN
  split_ifs with h1 h2
  · simp [toDayNumber]
    omega
  · have hy1 : d.year = d.year - 1 + 1 := by omega
    have hml : monthLength (d.year - 1) 11 = 31 := by simp [monthLength]
    have hlast := daysBeforeMonth_last (d.year - 1)
    have hsucc := leapsBefore_succ (d.year - 1)
    rw [← hy1] at hsucc
    have h0 : daysBeforeMonth d.year 0 = 0 := by simp [daysBeforeMonth]
    simp only [toDayNumber, h2, h0]
    rcases Bool.eq_false_or_eq_true (isLeap (d.year - 1)) with hL | hL <;>
      rw [hL] at hsucc hlast <;> simp at hsucc hlast <;> omega
  · have hm1 : d.month - 1 + 1 = d.month := by omega
    have hstep := daysBeforeMonth_succ d.year (d.month - 1) (by omega)
    rw [hm1] at hstep
    have hge := monthLength_ge d.year (d.month - 1)
    simp only [toDayNumber]
    omega

theorem monthIdx_addMonthsJS (d : CDate) (k : Nat) (hv : validDate d)
    (hk : k ≤ 12) (hd : d.day ≤ 28) :
    monthIdx (addMonthsJS d k) = monthIdx d + k ∧ (addMonthsJS d k).day = d.day := by
  obtain ⟨hy, hm, hd1, hd2⟩ := hv
  have g1 := monthLength_ge d.year (d.month + k)
  have g2 := monthLength_ge (d.year + 1) (d.month + k - 12)
  have g3 := monthLength_ge d.year 11
  have g4 := monthLength_ge (d.year + 1) 11
  unfold addMonthsJS monthCarry
  split_ifs <;> constructor <;> simp [monthIdx] <;> omega

theorem monthIdx_subMonthsJS (d : CDate) (k : Nat) (hv : validDate d)
    (hk : k ≤ 12) (hd : d.day ≤ 28) :
    monthIdx (subMonthsJS d k) + k = monthIdx d ∧ (subMonthsJS d k).day = d.day := by
  obtain ⟨hy, hm, hd1, hd2⟩ := hv
  have g1 := monthLength_ge d.year (d.month - k)
  have g2 := monthLength_ge (d.year - 1) (d.month + 12 - k)
  have g3 := monthLength_ge d.year 11
  have g4 := monthLength_ge (d.year - 1) 11
  unfold subMonthsJS monthCarry
  split_ifs <;> constructor <;> simp [monthIdx] <;> omega

/-- Navigation in daily view moves the held date by exactly one day. -/
def navDailyOK (d : CDate) : Prop :=
  toDayNumber (next d .daily) = toDayNumber d + 1 ∧
  toDayNumber (previous d .daily) + 1 = toDayNumber d

/-- Navigation in weekly view moves the held date by exactly seven days. -/
def navWeeklyOK (d : CDate) : Prop :=
  toDayNumber (next d .weekly) = toDayNumber d + 7 ∧
  toDayNumber (previous d .weekly) + 7 = toDayNumber d

/-- Navigation in monthly view moves the month index by exactly one,
keeping the day of the month. -/
def navMonthlyOK (d : CDate) : Prop :=
  monthIdx (next d .monthly) = monthIdx d + 1 ∧ (next d .monthly).day = d.day ∧
  monthIdx (previous d .monthly) + 1 = monthIdx d ∧ (previous d .monthly).day = d.day

/-- Navigation in semester view moves the month index by exactly six,
keeping the day of the month. -/
def navSemesterOK (d : CDate) : Prop :=
  monthIdx (next d .semester) = monthIdx d + 6 ∧ (next d .semester).day = d.day ∧
  monthIdx (previous d .semester) + 6 = monthIdx d ∧ (previous d .semester).day = d.day

/-- Sample date used to instantiate the navigation theorem. -/
def navSample : CDate := ⟨2025, 3, 15⟩

/-! ### Time utilities (screens/Agenda/utils/time.ts)

A timestamp is embedded as an abstract day index together with its local
clock fields, the components a JavaScript `Date` exposes through
`getHours`/`getMinutes`/`setHours`. -/

/-- Local timestamp: day index plus hour, minute, second and millisecond. -/
structure LocalTime where
  day : Nat
  hour : Nat
  minute : Nat
  second : Nat
  ms : Nat
deriving DecidableEq, Repr

/-- Conversion of timeToMinutes: minutes since local midnight, from the
hour and minute fields only. -/
def timeToMinutes (t : LocalTime) : Nat :=
  t.hour * 60 + t.minute

/-- Conversion of durationInMinutes: difference of the day-relative minute
offsets of the two timestamps. -/
def durationInMinutes (s e : LocalTime) : Int :=
  (timeToMinutes e : Int) - (timeToMinutes s : Int)

/-- Normalization of startOfDay: `d.setHours(0, 0, 0, 0)`. -/
def startOfDay (t : LocalTime) : LocalTime :=
  { t with hour := 0, minute := 0, second := 0, ms := 0 }

/-- Normalization of endOfDay: `d.setHours(23, 59, 59, 999)`. -/
def endOfDay (t : LocalTime) : LocalTime :=
  { t with hour := 23, minute := 59, second := 59, ms := 999 }

/-- Absolute position of a timestamp in milliseconds, for comparing
timestamps on different days. -/
def toMillis (t : LocalTime) : Nat :=
  (((t.day * 24 + t.hour) * 60 + t.minute) * 60 + t.second) * 1000 + t.ms

/-- Modelled from the spec: the exclusive end of the half-open daily window,
00:00:00.000 of the following day, which `windowFor(date, daily)` is
specified to return and the repository slice does not implement. -/
def nextMidnight (t : LocalTime) : LocalTime :=
  ⟨t.day + 1, 0, 0, 0, 0⟩

/-! ### Energy utilities (screens/Agenda/utils/energy.ts) -/

/-- Clamping of normalizeEnergy: values below 0 map to 0, above 1 map to 1. -/
def normalizeEnergy (x : ℚ) : ℚ :=
  if x < 0 then 0 else if x > 1 then 1 else x

/-! ### API adapter (api/agendaApi.ts) and state hook (hooks/useAgendaState.ts)

The adapter builds an HTTP request from the date and view given by the
hook; the hook reduces intent and state responses to updates of its three
React state cells (`state`, `loading`, `error`).  Both are embedded as
pure functions on the request and response data. -/

/-- Error payload of an API response (`error?: { message: string }`). -/
structure ErrorInfo where
  message : String
deriving DecidableEq, Repr

/-- Status discriminator of an API response (`status: "ok" | "error"`). -/
inductive ApiStatus
  | ok
  | error
deriving DecidableEq, Repr

/-- Shape of a ui_bridge response as the frontend receives it. -/
structure ApiResponse (α : Type) where
  status : ApiStatus
  data : Option α
  error : Option ErrorInfo

/-- Query parameters the adapter can attach to the get-state URL. -/
structure QueryParams where
  date : Option String
  view : Option String
deriving DecidableEq, Repr

/-- HTTP request assembled by the adapter. -/
structure GetStateRequest where
  url : String
  query : QueryParams
deriving DecidableEq, Repr

/-- Request construction of getAgendaState: the URL is the hard-coded
day endpoint and only the `date` search parameter is set; the `view`
argument of the adapter is not used. -/
def getAgendaStateRequest (date : String) (view : AgendaViewMode) : GetStateRequest :=
  { url := "http://localhost:8000/ui/agenda/day"
    query := { date := some date, view := none } }

/-- React state cells held by useAgendaState. -/
structure HookState (α : Type) where
  state : Option α
  loading : Bool
  error : Option String

/-- State update performed by fetchState for a given get-state response:
on success the snapshot replaces `state`, otherwise `error` receives the
response message (or the fallback text) and `state` is kept. -/
def fetchStateStep {α : Type} (hs : HookState α) (resp : ApiResponse α) : HookState α :=
  match resp.status, resp.data with
  | .ok, some d => { state := some d, loading := false, error := none }
  | _, _ =>
      { state := hs.state
        loading := false
        error := some (match resp.error with
          | some e => e.message
          | none => "Erro ao carregar agenda") }

/-- State update performed by sendIntent: an ok response triggers a
refresh (the returned flag) evaluated against the subsequent get-state
response, any other status only records the error message. -/
def sendIntentStep {α β : Type} (hs : HookState α) (ir : ApiResponse β)
    (sr : ApiResponse α) : HookState α × Bool :=
  match ir.status with
  | .ok => (fetchStateStep hs sr, true)
  | .error =>
      ({ hs with
          error := some (match ir.error with
            | some e => e.message
            | none => "Erro ao executar acao") },
        false)

/-! ### Agenda reconciliation engine

The engine itself (conflict detector, intent processor, summary projector,
reallocation planner) is not part of the repository slice: the frontend
only mirrors its contracts in contracts/agenda.ts.  The definitions below
are therefore modelled from the specification text.  Timestamps are
minutes as integers, energy costs are rationals. -/

/-- Block type of contracts/agenda.ts `AgendaBlockType`. -/
inductive BlockType
  | fixed
  | flexible
  | suggested
deriving DecidableEq, Repr

/-- Block status of contracts/agenda.ts `AgendaBlockStatus`. -/
inductive BlockStatus
  | pending
  | in_progress
  | completed
  | skipped
deriving DecidableEq, Repr, Fintype

/-- Terminal statuses are completed and skipped. -/
def BlockStatus.isTerminal : BlockStatus → Bool
  | .completed => true
  | .skipped => true
  | _ => false

/-- Schedule block of contracts/agenda.ts `AgendaBlock`; the `end`
timestamp is named `endT` because `end` is reserved in Lean, and the
opaque metadata bag is omitted since the engine never inspects it. -/
structure Block where
  id : Nat
  type : BlockType
  status : BlockStatus
  title : String
  start : Int
  endT : Int
  energyCost : ℚ
  priority : Option Nat
deriving DecidableEq, Repr

/-- Modelled from the spec: overlap test of the Conflict Detector,
intervals overlap iff `s1 < e2 AND s2 < e1`. -/
def overlaps (s1 e1 s2 e2 : Int) : Bool :=
  decide (s1 < e2) && decide (s2 < e1)

/-- Outcome of a conflict check. -/
inductive ConflictResult
  | NoConflict
  | OverlapsFixed (blockId : Nat)
deriving DecidableEq, Repr

/-- Modelled from the spec: the Conflict Detector `check(candidate,
existing)`, flagging the first fixed block, other than the candidate
itself, whose interval overlaps the candidate placement. -/
def check (candidate : Block) (existing : List Block) : ConflictResult :=
  match existing.find? (fun b =>
      decide (b.id ≠ candidate.id) && decide (b.type = BlockType.fixed) &&
      overlaps candidate.start candidate.endT b.start b.endT) with
  | some b => .OverlapsFixed b.id
  | none => .NoConflict

/-- Typed rejections of the error-handling taxonomy.  The spec requires
`type ≠ fixed unless explicitly authorized` for MOVE_BLOCK without naming
the rejection kind of an unauthorized move; that case gets its own
constructor. -/
inductive Rejection
  | NotFound
  | Terminal
  | AlreadyTerminal
  | InvalidRange
  | Conflict (blockId : Nat)
  | NotASuggestion
  | NotAuthorized
deriving DecidableEq, Repr

/-- Reallocation scope of `REQUEST_REALLOCATION{scope}`. -/
inductive Scope
  | day
  | week
deriving DecidableEq, Repr

/-- Intents of contracts/agenda.ts `AgendaIntent` with their payloads. -/
inductive Intent
  | MOVE_BLOCK (blockId : Nat) (newStart : Int)
  | RESIZE_BLOCK (blockId : Nat) (newEnd : Int)
  | COMPLETE_BLOCK (blockId : Nat)
  | SKIP_BLOCK (blockId : Nat)
  | ACCEPT_SUGGESTION (blockId : Nat)
  | REQUEST_REALLOCATION (scope : Scope)
deriving DecidableEq, Repr

/-- Lookup of a block by identifier in the store. -/
def findBlock (st : List Block) (i : Nat) : Option Block :=
  st.find? (fun b => decide (b.id = i))

/-- Replacement by identifier in the store (`put(block)`). -/
def putBlock (st : List Block) (b : Block) : List Block :=
  st.map (fun x => if x.id = b.id then b else x)

/-- Intersection of a block with a window, using the half-open overlap test. -/
def inWindow (b : Block) (ws we : Int) : Bool :=
  overlaps b.start b.endT ws we

/-- Modelled from the spec: step 1 of the Reallocation Planner collects
the non-terminal flexible and suggested blocks in the scope window. -/
def isReallocCandidate (b : Block) (ws we : Int) : Bool :=
  !b.status.isTerminal &&
    (decide (b.type = BlockType.flexible) || decide (b.type = BlockType.suggested)) &&
    inWindow b ws we

/-- Modelled from the spec: utilization, the total energy cost of the
reallocation candidates in the window. -/
def utilization (st : List Block) (ws we : Int) : ℚ :=
  ((st.filter (fun b => isReallocCandidate b ws we)).map Block.energyCost).sum

/-- Sort key order of step 3: ascending priority with missing priority
last, then ascending energy cost. -/
def keyLE (a b : Block) : Bool :=
  decide (a.priority.getD 6 < b.priority.getD 6) ||
    (decide (a.priority.getD 6 = b.priority.getD 6) && decide (a.energyCost ≤ b.energyCost))

/-- Ordered insertion for the candidate sort. -/
def insertSorted (b : Block) : List Block → List Block
  | [] => [b]
  | x :: xs => if keyLE b x then b :: x :: xs else x :: insertSorted b xs

/-- Insertion sort of the reallocation candidates by the step-3 key. -/
def sortCandidates : List Block → List Block
  | [] => []
  | x :: xs => insertSorted x (sortCandidates xs)

/-- Greedy eviction walk of step 4: report blocks as unplaced, lowest
priority first, until utilization fits the capacity. -/
def evictLoop (cap : ℚ) : List Block → ℚ → List Nat
  | [], _ => []
  | b :: rest, util =>
      if util ≤ cap then [] else b.id :: evictLoop cap rest (util - b.energyCost)

/-- Modelled from the spec: the Reallocation Planner.  Within capacity it
returns the input unchanged; otherwise, in the default configuration that
leaves unplaced blocks pending and reports them, it returns the store
unchanged together with the identifiers reported as unplaced in eviction
order. -/
def reallocate (st : List Block) (cap : ℚ) (ws we : Int) : List Block × List Nat :=
  if utilization st ws we ≤ cap then (st, [])
  else
    (st, evictLoop cap
      ((sortCandidates (st.filter (fun b => isReallocCandidate b ws we))).reverse)
      (utilization st ws we))

/-- Modelled from the spec: the Intent Processor transition function of
the intent table, validating preconditions, re-running the Conflict
Detector on placements, and returning the new store with the unplaced
report or a typed rejection. -/
def processIntent (st : List Block) (cap : ℚ) (ws we : Int) :
    Intent → Except Rejection (List Block × List Nat)
  | .MOVE_BLOCK i ns =>
    match findBlock st i with
    | none => .error .NotFound
    | some b =>
      if b.status.isTerminal then .error .Terminal
      else if b.type = .fixed then .error .NotAuthorized
      else
        match check { b with start := ns, endT := ns + (b.endT - b.start) } st with
        | .OverlapsFixed f => .error (.Conflict f)
        | .NoConflict => .ok (putBlock st { b with start := ns, endT := ns + (b.endT - b.start) }, [])
  | .RESIZE_BLOCK i ne =>
    match findBlock st i with
    | none => .error .NotFound
    | some b =>
      if b.status.isTerminal then .error .Terminal
      else if ne ≤ b.start then .error .InvalidRange
      else
        match check { b with endT := ne } st with
        | .OverlapsFixed f => .error (.Conflict f)
        | .NoConflict => .ok (putBlock st { b with endT := ne }, [])
  | .COMPLETE_BLOCK i =>
    match findBlock st i with
    | none => .error .NotFound
    | some b =>
      if b.status.isTerminal then .error .AlreadyTerminal
      else .ok (putBlock st { b with status := .completed }, [])
  | .SKIP_BLOCK i =>
    match findBlock st i with
    | none => .error .NotFound
    | some b =>
      if b.status.isTerminal then .error .AlreadyTerminal
      else .ok (putBlock st { b with status := .skipped }, [])
  | .ACCEPT_SUGGESTION i =>
    match findBlock st i with
    | none => .error .NotFound
    | some b =>
      if b.type ≠ .suggested then .error .NotASuggestion
      else
        match check { b with type := .flexible } st with
        | .OverlapsFixed f => .error (.Conflict f)
        | .NoConflict => .ok (putBlock st { b with type := .flexible }, [])
  | .REQUEST_REALLOCATION _ => .ok (reallocate st cap ws we)

/-- Blocks of the store intersecting a window. -/
def windowBlocks (st : List Block) (ws we : Int) : List Block :=
  st.filter (fun b => inWindow b ws we)

/-- Modelled from the spec: the focusScore denominator, the total energy
cost of the non-suggested blocks in the window. -/
def plannedLoad (st : List Block) (ws we : Int) : ℚ :=
  (((windowBlocks st ws we).filter (fun b => decide (b.type ≠ BlockType.suggested))).map
    Block.energyCost).sum

/-- Modelled from the spec: the focusScore numerator, the total energy
cost of the completed blocks in the window. -/
def completedLoad (st : List Block) (ws we : Int) : ℚ :=
  (((windowBlocks st ws we).filter (fun b => decide (b.status = BlockStatus.completed))).map
    Block.energyCost).sum

/-- Modelled from the spec: focusScore of the Summary Projector, 100 times
the completed share of the planned load, or 100 when nothing is planned. -/
def focusScore (st : List Block) (ws we : Int) : ℚ :=
  if plannedLoad st ws we = 0 then 100
  else 100 * completedLoad st ws we / plannedLoad st ws we

/-- Application of a processed intent to the store: an accepted intent
commits its new store, a rejection leaves the store unchanged. -/
def applyIntent (cap : ℚ) (ws we : Int) (st : List Block) (i : Intent) : List Block :=
  match processIntent st cap ws we i with
  | .ok p => p.1
  | .error _ => st

/-- Store after a sequence of processed intents. -/
def runIntents (cap : ℚ) (ws we : Int) (st : List Block) (is : List Intent) : List Block :=
  is.foldl (applyIntent cap ws we) st

/-- Status transitions the lifecycle invariant allows: stay put, or move
forward along pending to in_progress to completed, or from a non-terminal
status to skipped. -/
def allowedStatusStep (s t : BlockStatus) : Prop :=
  s = t ∨
    (s = .pending ∧ (t = .in_progress ∨ t = .completed ∨ t = .skipped)) ∨
    (s = .in_progress ∧ (t = .completed ∨ t = .skipped))

instance (s t : BlockStatus) : Decidable (allowedStatusStep s t) := by
  unfold allowedStatusStep
  infer_instance

/-! ### Claim theorems -/

/-- C1, counterexample: the claim that next and previous shift the date by
exactly one unit fails in monthly view.  Next on 2025-01-31 lands on
2025-03-03, two calendar months ahead, because the day of month overflows
February; previous on 2025-03-31 also lands on 2025-03-03, in the same
month as the input. -/
theorem nav_monthly_counterexample :
    next ⟨2025, 0, 31⟩ .monthly = ⟨2025, 2, 3⟩ ∧
    monthIdx (next ⟨2025, 0, 31⟩ .monthly) = monthIdx ⟨2025, 0, 31⟩ + 2 ∧
    previous ⟨2025, 2, 31⟩ .monthly = ⟨2025, 2, 3⟩ ∧
    monthIdx (previous ⟨2025, 2, 31⟩ .monthly) = monthIdx ⟨2025, 2, 31⟩ := by
  decide

/-- C1, amended: next and previous shift the held date by exactly one day
in daily view and seven days in weekly view for every valid date; in
monthly and semester view they shift the month index by exactly one and
six units keeping the day of month whenever that day is at most 28, while
larger days can roll over into the following month under the JavaScript
Date normalization.  Both remain pure and total. -/
theorem nav_amended_shift (d : CDate) (hv : validDate d) :
    navDailyOK d ∧ navWeeklyOK d ∧ (d.day ≤ 28 → navMonthlyOK d ∧ navSemesterOK d) := by
  refine ⟨⟨toDayNumber_addDayN d 1 hv, toDayNumber_subDayN d 1 hv (by omega)⟩,
    ⟨toDayNumber_addDayN d 7 hv, toDayNumber_subDayN d 7 hv (by omega)⟩,
    fun hd => ⟨?_, ?_⟩⟩
  · obtain ⟨ha1, ha2⟩ := monthIdx_addMonthsJS d 1 hv (by omega) hd
    obtain ⟨hs1, hs2⟩ := monthIdx_subMonthsJS d 1 hv (by omega) hd
    exact ⟨ha1, ha2, hs1, hs2⟩
  · obtain ⟨ha1, ha2⟩ := monthIdx_addMonthsJS d 6 hv (by omega) hd
    obtain ⟨hs1, hs2⟩ := monthIdx_subMonthsJS d 6 hv (by omega) hd
    exact ⟨ha1, ha2, hs1, hs2⟩

/-- C1, witness: the amended navigation theorem instantiated at
2025-04-15, a valid date with day at most 28. -/
theorem nav_amended_shift_witness :
    validDate navSample ∧ navSample.day ≤ 28 ∧ navDailyOK navSample ∧
    navWeeklyOK navSample ∧ navMonthlyOK navSample ∧ navSemesterOK navSample :=
  ⟨by decide, by decide, (nav_amended_shift navSample (by decide)).1,
    (nav_amended_shift navSample (by decide)).2.1,
    ((nav_amended_shift navSample (by decide)).2.2 (by decide)).1,
    ((nav_amended_shift navSample (by decide)).2.2 (by decide)).2⟩

/-- C2: a rejected intent leaves the held snapshot and the loading flag
unchanged, triggers no refresh, and only records an error message. -/
theorem rejected_intent_preserves_state {α β : Type} (hs : HookState α)
    (ir : ApiResponse β) (sr : ApiResponse α) (h : ir.status ≠ ApiStatus.ok) :
    (sendIntentStep hs ir sr).1.state = hs.state ∧
    (sendIntentStep hs ir sr).1.loading = hs.loading ∧
    (sendIntentStep hs ir sr).2 = false ∧
    ((sendIntentStep hs ir sr).1.error).isSome = true := by
  cases hst : ir.status with
  | ok => exact absurd hst h
  | error => simp [sendIntentStep, hst]

/-- Sample hook state for the C2 witness. -/
def hsSample : HookState Nat := ⟨some 7, false, none⟩

/-- Sample rejected intent response for the C2 witness. -/
def irSample : ApiResponse Nat := ⟨.error, none, some ⟨"Conflito com bloco fixo"⟩⟩

/-- Sample get-state response for the C2 witness. -/
def srSample : ApiResponse Nat := ⟨.ok, some 8, none⟩

/-- C2, witness: the rejection theorem instantiated at a concrete hook
state and a concrete error response. -/
theorem rejected_intent_preserves_state_witness :
    irSample.status ≠ ApiStatus.ok ∧
    (sendIntentStep hsSample irSample srSample).1.state = hsSample.state ∧
    (sendIntentStep hsSample irSample srSample).2 = false :=
  ⟨by decide,
    (rejected_intent_preserves_state hsSample irSample srSample (by decide)).1,
    (rejected_intent_preserves_state hsSample irSample srSample (by decide)).2.2.1⟩

/-- C3, counterexample: the claim that the daily window ends exclusively
at 00:00:00.000 of the next day fails; endOfDay returns 23:59:59.999 of
the same day, not the following midnight. -/
theorem endOfDay_not_next_midnight :
    endOfDay ⟨0, 5, 6, 7, 8⟩ = ⟨0, 23, 59, 59, 999⟩ ∧
    endOfDay ⟨0, 5, 6, 7, 8⟩ ≠ nextMidnight ⟨0, 5, 6, 7, 8⟩ := by
  decide

/-- C3, amended: the daily window is the closed interval from 00:00:00.000
to 23:59:59.999 of the day; its end is one millisecond before the next
midnight, and at millisecond resolution the closed interval contains
exactly the instants of the half-open 24h interval. -/
theorem daily_window_amended (t : LocalTime) :
    startOfDay t = ⟨t.day, 0, 0, 0, 0⟩ ∧
    endOfDay t = ⟨t.day, 23, 59, 59, 999⟩ ∧
    toMillis (endOfDay t) + 1 = toMillis (nextMidnight t) ∧
    (∀ x : Nat, toMillis (startOfDay t) ≤ x ∧ x ≤ toMillis (endOfDay t) ↔
      toMillis (startOfDay t) ≤ x ∧ x < toMillis (nextMidnight t)) := by
  refine ⟨rfl, rfl, ?_, ?_⟩
  · simp [toMillis, endOfDay, nextMidnight]
    omega
  · intro x
    simp [toMillis, startOfDay, endOfDay, nextMidnight]
    omega

/-- C4: the get-state adapter call evaluated at any date and view: the URL
is the hard-coded day endpoint, only the date query parameter is sent and
the view is dropped, so the request is not parameterized by the selected
view as the claim states. -/
theorem getAgendaState_drops_view :
    ∀ (d : String) (v : AgendaViewMode),
      (getAgendaStateRequest d v).url = "http://localhost:8000/ui/agenda/day" ∧
      (getAgendaStateRequest d v).query.date = some d ∧
      (getAgendaStateRequest d v).query.view = none :=
  fun d v => ⟨rfl, rfl, rfl⟩

/-- Fixed morning commitment of Scenario A, 09:00 to 10:00 in minutes. -/
def fixedMorning : Block := ⟨1, .fixed, .pending, "Aula fixa", 540, 600, 1/2, none⟩

/-- Flexible block of Scenario A, initially out of the way. -/
def flexTask : Block := ⟨2, .flexible, .pending, "Leitura", 700, 760, 3/10, none⟩

theorem allowedStatusStep_trans :
    ∀ s t u : BlockStatus, allowedStatusStep s t → allowedStatusStep t u →
      allowedStatusStep s u := by
  decide

theorem allowedStatusStep_terminal :
    ∀ s t : BlockStatus, s.isTerminal = true → allowedStatusStep s t → t = s := by
  decide

theorem putBlock_ids (st : List Block) (b : Block) :
    (putBlock st b).map Block.id = st.map Block.id := by
  unfold putBlock
  rw [List.map_map]
  refine List.map_congr_left ?_
  intro x hx
  by_cases h : x.id = b.id
  · simp [Function.comp, h]
  · simp [Function.comp, h]

theorem findBlock_mem {st : List Block} {i : Nat} {b : Block}
    (h : findBlock st i = some b) : b ∈ st ∧ b.id = i := by
  refine ⟨List.mem_of_find?_eq_some h, ?_⟩
  have h2 := List.find?_some h
  simpa using h2

theorem nodup_id_inj {st : List Block} (hnd : (st.map Block.id).Nodup)
    {b c : Block} (hb : b ∈ st) (hc : c ∈ st) (h : b.id = c.id) : b = c :=
  List.inj_on_of_nodup_map hnd hb hc h

theorem findBlock_of_mem {st : List Block} (hnd : (st.map Block.id).Nodup)
    {b : Block} (hb : b ∈ st) : findBlock st b.id = some b := by
  cases hf : findBlock st b.id with
  | none =>
      exfalso
      unfold findBlock at hf
      have h2 := List.find?_eq_none.mp hf b hb
      simp at h2
  | some c =>
      obtain ⟨hcmem, hcid⟩ := findBlock_mem hf
      exact congrArg _ (nodup_id_inj hnd hcmem hb hcid)

theorem putBlock_status (st : List Block) (b2 : Block) (hnd : (st.map Block.id).Nodup)
    (b0 : Block) (h0 : b0 ∈ st) (hid : b2.id = b0.id)
    (hstep : allowedStatusStep b0.status b2.status)
    (b : Block) (hb : b ∈ st) :
    ∃ c ∈ putBlock st b2, c.id = b.id ∧ allowedStatusStep b.status c.status := by
  by_cases h : b.id = b2.id
  · have hbb0 : b = b0 := nodup_id_inj hnd hb h0 (by rw [h, hid])
    refine ⟨b2, ?_, by rw [h], by rw [hbb0]; exact hstep⟩
    have hm := List.mem_map_of_mem (fun x => if x.id = b2.id then b2 else x) hb
    simpa [putBlock, h] using hm
  · refine ⟨b, ?_, rfl, Or.inl rfl⟩
    have hm := List.mem_map_of_mem (fun x => if x.id = b2.id then b2 else x) hb
    simpa [putBlock, h] using hm

theorem reallocate_fst (st : List Block) (cap : ℚ) (ws we : Int) :
    (reallocate st cap ws we).1 = st := by
  unfold reallocate
  split_ifs <;> rfl

theorem processIntent_shape (st : List Block) (cap : ℚ) (ws we : Int) (i : Intent)
    (st2 : List Block) (up : List Nat)
    (h : processIntent st cap ws we i = .ok (st2, up)) :
    st2 = st ∨ ∃ b0 b2 : Block, b0 ∈ st ∧ b2.id = b0.id ∧
      allowedStatusStep b0.status b2.status ∧ st2 = putBlock st b2 := by
  cases i with
  | MOVE_BLOCK bid ns =>
      simp only [processIntent] at h
      cases hf : findBlock st bid with
      | none => rw [hf] at h; exact absurd h (by simp)
      | some b0 =>
          rw [hf] at h
          by_cases ht : b0.status.isTerminal = true
          · simp [ht] at h
          · simp only [ht, Bool.false_eq_true, if_false] at h
            by_cases htp : b0.type = BlockType.fixed
            · simp [htp] at h
            · simp only [htp, if_false] at h
              cases hc : check { b0 with start := ns, endT := ns + (b0.endT - b0.start) } st with
              | OverlapsFixed f => rw [hc] at h; exact absurd h (by simp)
              | NoConflict =>
                  rw [hc] at h
                  simp only [Except.ok.injEq, Prod.mk.injEq] at h
                  exact Or.inr ⟨b0, { b0 with start := ns, endT := ns + (b0.endT - b0.start) },
                    (findBlock_mem hf).1, rfl, Or.inl rfl, h.1.symm⟩
  | RESIZE_BLOCK bid ne =>
      simp only [processIntent] at h
      cases hf : findBlock st bid with
      | none => rw [hf] at h; exact absurd h (by simp)
      | some b0 =>
          rw [hf] at h
          by_cases ht : b0.status.isTerminal = true
          · simp [ht] at h
          · simp only [ht, Bool.false_eq_true, if_false] at h
            by_cases hr : ne ≤ b0.start
            · simp [hr] at h
            · simp only [hr, if_false] at h
              cases hc : check { b0 with endT := ne } st with
              | OverlapsFixed f => rw [hc] at h; exact absurd h (by simp)
              | NoConflict =>
                  rw [hc] at h
                  simp only [Except.ok.injEq, Prod.mk.injEq] at h
                  exact Or.inr ⟨b0, { b0 with endT := ne },
                    (findBlock_mem hf).1, rfl, Or.inl rfl, h.1.symm⟩
  | COMPLETE_BLOCK bid =>
      simp only [processIntent] at h
      cases hf : findBlock st bid with
      | none => rw [hf] at h; exact absurd h (by simp)
      | some b0 =>
          rw [hf] at h
          by_cases ht : b0.status.isTerminal = true
          · simp [ht] at h
          · simp only [ht, Bool.false_eq_true, if_false] at h
            simp only [Except.ok.injEq, Prod.mk.injEq] at h
            refine Or.inr ⟨b0, { b0 with status := BlockStatus.completed },
              (findBlock_mem hf).1, rfl, ?_, h.1.symm⟩
            revert ht
            cases b0.status <;> simp [BlockStatus.isTerminal, allowedStatusStep]
  | SKIP_BLOCK bid =>
      simp only [processIntent] at h
      cases hf : findBlock st bid with
      | none => rw [hf] at h; exact absurd h (by simp)
      | some b0 =>
          rw [hf] at h
          by_cases ht : b0.status.isTerminal = true
          · simp [ht] at h
          · simp only [ht, Bool.false_eq_true, if_false] at h
            simp only [Except.ok.injEq, Prod.mk.injEq] at h
            refine Or.inr ⟨b0, { b0 with status := BlockStatus.skipped },
              (findBlock_mem hf).1, rfl, ?_, h.1.symm⟩
            revert ht
            cases b0.status <;> simp [BlockStatus.isTerminal, allowedStatusStep]
  | ACCEPT_SUGGESTION bid =>
      simp only [processIntent] at h
      cases hf : findBlock st bid with
      | none => rw [hf] at h; exact absurd h (by simp)
      | some b0 =>
          rw [hf] at h
          by_cases ht : b0.type ≠ BlockType.suggested
          · simp [ht] at h
          · simp only [ht, if_false] at h
            cases hc : check { b0 with type := BlockType.flexible } st with
            | OverlapsFixed f => rw [hc] at h; exact absurd h (by simp)
            | NoConflict =>
                rw [hc] at h
                simp only [Except.ok.injEq, Prod.mk.injEq] at h
                exact Or.inr ⟨b0, { b0 with type := BlockType.flexible },
                  (findBlock_mem hf).1, rfl, Or.inl rfl, h.1.symm⟩
  | REQUEST_REALLOCATION s =>
      simp only [processIntent] at h
      injection h with hp
      left
      have h1 := congrArg Prod.fst hp
      rw [reallocate_fst] at h1
      exact h1.symm

theorem applyIntent_status (cap : ℚ) (ws we : Int) (st : List Block) (i : Intent)
    (hnd : (st.map Block.id).Nodup) (b : Block) (hb : b ∈ st) :
    ∃ c ∈ applyIntent cap ws we st i, c.id = b.id ∧ allowedStatusStep b.status c.status := by
  cases hp : processIntent st cap ws we i with
  | error r =>
      have ha : applyIntent cap ws we st i = st := by unfold applyIntent; rw [hp]
      rw [ha]
      exact ⟨b, hb, rfl, Or.inl rfl⟩
  | ok p =>
      have ha : applyIntent cap ws we st i = p.1 := by unfold applyIntent; rw [hp]
      rw [ha]
      rcases processIntent_shape st cap ws we i p.1 p.2 (by rw [hp]) with
        hsame | ⟨b0, b2, h0, hid, hstep, hst2⟩
      · rw [hsame]
        exact ⟨b, hb, rfl, Or.inl rfl⟩
      · rw [hst2]
        exact putBlock_status st b2 hnd b0 h0 hid hstep b hb

theorem applyIntent_ids (cap : ℚ) (ws we : Int) (st : List Block) (i : Intent) :
    (applyIntent cap ws we st i).map Block.id = st.map Block.id := by
  cases hp : processIntent st cap ws we i with
  | error r =>
      have ha : applyIntent cap ws we st i = st := by unfold applyIntent; rw [hp]
      rw [ha]
  | ok p =>
      have ha : applyIntent cap ws we st i = p.1 := by unfold applyIntent; rw [hp]
      rcases processIntent_shape st cap ws we i p.1 p.2 (by rw [hp]) with
        hsame | ⟨b0, b2, h0, hid, hstep, hst2⟩
      · rw [ha, hsame]
      · rw [ha, hst2, putBlock_ids]

theorem runIntents_status (cap : ℚ) (ws we : Int) (is : List Intent) :
    ∀ st : List Block, (st.map Block.id).Nodup → ∀ b ∈ st,
      ∃ c ∈ runIntents cap ws we st is, c.id = b.id ∧
        allowedStatusStep b.status c.status := by
  induction is with
  | nil =>
      intro st hnd b hb
      exact ⟨b, hb, rfl, Or.inl rfl⟩
  | cons i rest ih =>
      intro st hnd b hb
      obtain ⟨c, hc, hcid, hcstep⟩ := applyIntent_status cap ws we st i hnd b hb
      have hnd2 : ((applyIntent cap ws we st i).map Block.id).Nodup := by
        rw [applyIntent_ids]
        exact hnd
      obtain ⟨d, hd, hdid, hdstep⟩ := ih (applyIntent cap ws we st i) hnd2 c hc
      exact ⟨d, hd, by rw [hdid, hcid], allowedStatusStep_trans _ _ _ hcstep hdstep⟩

theorem processIntent_terminal_reject (st : List Block) (cap : ℚ) (ws we : Int)
    (b : Block) (hnd : (st.map Block.id).Nodup) (hb : b ∈ st)
    (ht : b.status.isTerminal = true) (ns : Int) :
    processIntent st cap ws we (.MOVE_BLOCK b.id ns) = .error .Terminal ∧
    processIntent st cap ws we (.RESIZE_BLOCK b.id ns) = .error .Terminal ∧
    processIntent st cap ws we (.COMPLETE_BLOCK b.id) = .error .AlreadyTerminal ∧
    processIntent st cap ws we (.SKIP_BLOCK b.id) = .error .AlreadyTerminal := by
  have hf := findBlock_of_mem hnd hb
  refine ⟨?_, ?_, ?_, ?_⟩ <;> simp [processIntent, hf, ht]

/-- Skipped suggested block witnessing the C5 counterexample. -/
def termSugg : Block := ⟨9, .suggested, .skipped, "Sugestao antiga", 0, 60, 1, none⟩

/-- C5, counterexample: the parenthetical claim that every further
mutating intent on a terminal block is rejected fails for
ACCEPT_SUGGESTION, whose precondition checks only that the block is
suggested: on a skipped suggested block it succeeds and changes the type
while the status stays skipped. -/
theorem terminal_accept_suggestion_succeeds :
    termSugg.status.isTerminal = true ∧
    processIntent [termSugg] 10 0 1440 (.ACCEPT_SUGGESTION 9) =
      .ok ([{ termSugg with type := .flexible }], []) ∧
    ({ termSugg with type := BlockType.flexible } : Block).status = .skipped :=
  ⟨rfl, rfl, rfl⟩

/-- C5: over any sequence of processed intents every block's status only
changes along the forward lifecycle edges and a terminal status never
changes again; MOVE_BLOCK, RESIZE_BLOCK, COMPLETE_BLOCK and SKIP_BLOCK on
a terminal block are rejected with the corresponding terminal rejection. -/
theorem status_forward_invariant (cap : ℚ) (ws we : Int) (st : List Block)
    (is : List Intent) (hnd : (st.map Block.id).Nodup) (b : Block) (hb : b ∈ st) :
    (∃ c ∈ runIntents cap ws we st is, c.id = b.id ∧
      allowedStatusStep b.status c.status ∧
      (b.status.isTerminal = true → c.status = b.status)) ∧
    (b.status.isTerminal = true → ∀ ns : Int,
      processIntent st cap ws we (.MOVE_BLOCK b.id ns) = .error .Terminal ∧
      processIntent st cap ws we (.RESIZE_BLOCK b.id ns) = .error .Terminal ∧
      processIntent st cap ws we (.COMPLETE_BLOCK b.id) = .error .AlreadyTerminal ∧
      processIntent st cap ws we (.SKIP_BLOCK b.id) = .error .AlreadyTerminal) := by
  constructor
  · obtain ⟨c, hc, hcid, hcstep⟩ := runIntents_status cap ws we is st hnd b hb
    exact ⟨c, hc, hcid, hcstep, fun ht => allowedStatusStep_terminal _ _ ht hcstep⟩
  · intro ht ns
    exact processIntent_terminal_reject st cap ws we b hnd hb ht ns

/-- Terminal block with a completed status for the C5 witness. -/
def doneBlock : Block := ⟨1, .flexible, .completed, "Feito", 0, 60, 1, none⟩

/-- C5, witness: the invariant theorem instantiated at a one-block store
whose block is already completed. -/
theorem status_forward_invariant_witness :
    ([doneBlock].map Block.id).Nodup ∧ doneBlock ∈ [doneBlock] ∧
    doneBlock.status.isTerminal = true ∧
    processIntent [doneBlock] 10 0 1440 (.COMPLETE_BLOCK doneBlock.id) =
      .error .AlreadyTerminal :=
  ⟨by simp, by simp, rfl,
    ((status_forward_invariant 10 0 1440 [doneBlock] [] (by simp) doneBlock
      (by simp)).2 rfl 0).2.2.1⟩

/-- C6: the overlap predicate holds exactly when each interval starts
before the other ends; moving the flexible block to 09:30 against the
fixed 09:00 to 10:00 block is rejected with Conflict naming the fixed
block; intervals sharing only an endpoint do not overlap. -/
theorem overlap_semantics_and_conflict :
    (∀ s1 e1 s2 e2 : Int, overlaps s1 e1 s2 e2 = true ↔ s1 < e2 ∧ s2 < e1) ∧
    processIntent [fixedMorning, flexTask] 10 0 1440 (.MOVE_BLOCK 2 570) =
      .error (.Conflict 1) ∧
    overlaps 540 600 600 660 = false ∧ overlaps 600 660 540 600 = false := by
  refine ⟨?_, by rfl, by decide, by decide⟩
  intro s1 e1 s2 e2
  simp [overlaps]

/-- Flexible study block used by Scenario C and the reallocation witness. -/
def studyBlock : Block := ⟨1, .flexible, .pending, "Estudo", 600, 660, 1/2, none⟩

/-- Completed form of the study block. -/
def studyBlockDone : Block := { studyBlock with status := .completed }

theorem plannedLoad_studyBlock : plannedLoad [studyBlock] 0 1440 = 1 / 2 := by
  have d1 : decide (BlockType.flexible = BlockType.suggested) = false := by decide
  norm_num [plannedLoad, windowBlocks, inWindow, overlaps, studyBlock, List.filter, d1]

theorem plannedLoad_studyBlockDone : plannedLoad [studyBlockDone] 0 1440 = 1 / 2 := by
  have d1 : decide (BlockType.flexible = BlockType.suggested) = false := by decide
  norm_num [plannedLoad, windowBlocks, inWindow, overlaps, studyBlock, studyBlockDone,
    List.filter, d1]

theorem completedLoad_studyBlock : completedLoad [studyBlock] 0 1440 = 0 := by
  have d1 : decide (BlockStatus.pending = BlockStatus.completed) = false := by decide
  norm_num [completedLoad, windowBlocks, inWindow, overlaps, studyBlock, List.filter, d1]

theorem completedLoad_studyBlockDone : completedLoad [studyBlockDone] 0 1440 = 1 / 2 := by
  have d1 : decide (BlockStatus.completed = BlockStatus.completed) = true := by decide
  norm_num [completedLoad, windowBlocks, inWindow, overlaps, studyBlock, studyBlockDone,
    List.filter, d1]

theorem utilization_studyBlock : utilization [studyBlock] 0 1440 = 1 / 2 := by
  have d1 : decide (BlockType.flexible = BlockType.flexible) = true := by decide
  have d2 : decide (BlockType.flexible = BlockType.suggested) = false := by decide
  norm_num [utilization, isReallocCandidate, inWindow, overlaps, studyBlock,
    BlockStatus.isTerminal, List.filter, d1, d2]

/-- C7: focusScore is 100 when the planned load of the window is zero and
otherwise satisfies score times planned load equals 100 times completed
load; completing the single block of an otherwise empty window raises the
score from 0 to 100. -/
theorem focusScore_formula :
    (∀ (st : List Block) (ws we : Int),
      plannedLoad st ws we = 0 → focusScore st ws we = 100) ∧
    (∀ (st : List Block) (ws we : Int), plannedLoad st ws we ≠ 0 →
      focusScore st ws we * plannedLoad st ws we = 100 * completedLoad st ws we) ∧
    focusScore [studyBlock] 0 1440 = 0 ∧
    processIntent [studyBlock] 10 0 1440 (.COMPLETE_BLOCK 1) =
      .ok ([studyBlockDone], []) ∧
    focusScore [studyBlockDone] 0 1440 = 100 := by
  refine ⟨?_, ?_, ?_, by rfl, ?_⟩
  · intro st ws we h
    simp [focusScore, h]
  · intro st ws we h
    simp only [focusScore, if_neg h]
    exact div_mul_cancel₀ _ h
  · rw [focusScore, if_neg (by rw [plannedLoad_studyBlock]; norm_num),
      completedLoad_studyBlock]
    norm_num
  · rw [focusScore, if_neg (by rw [plannedLoad_studyBlockDone]; norm_num),
      completedLoad_studyBlockDone, plannedLoad_studyBlockDone]
    norm_num

/-- C7, witness: the zero-denominator case at the empty store and the
proportionality case at the single pending study block. -/
theorem focusScore_formula_witness :
    plannedLoad ([] : List Block) 0 1440 = 0 ∧
    focusScore ([] : List Block) 0 1440 = 100 ∧
    plannedLoad [studyBlock] 0 1440 ≠ 0 ∧
    focusScore [studyBlock] 0 1440 * plannedLoad [studyBlock] 0 1440 =
      100 * completedLoad [studyBlock] 0 1440 :=
  ⟨by simp [plannedLoad, windowBlocks], focusScore_formula.1 [] 0 1440 (by simp [plannedLoad, windowBlocks]),
    by rw [plannedLoad_studyBlock]; norm_num,
    focusScore_formula.2.1 [studyBlock] 0 1440 (by rw [plannedLoad_studyBlock]; norm_num)⟩

/-- C8: when the utilization of the scope window is within capacity,
reallocation returns the identical store with nothing unplaced, and the
REQUEST_REALLOCATION intent commits exactly that unchanged state. -/
theorem reallocation_within_capacity_noop (st : List Block) (cap : ℚ) (ws we : Int)
    (h : utilization st ws we ≤ cap) :
    reallocate st cap ws we = (st, []) ∧
    processIntent st cap ws we (.REQUEST_REALLOCATION .day) = .ok (st, []) := by
  have h1 : reallocate st cap ws we = (st, []) := by
    unfold reallocate
    rw [if_pos h]
  exact ⟨h1, by simp [processIntent, h1]⟩

/-- C8, witness: the no-op theorem at a one-block store whose half-unit
load is within a capacity of ten. -/
theorem reallocation_within_capacity_noop_witness :
    utilization [studyBlock] 0 1440 ≤ 10 ∧
    reallocate [studyBlock] 10 0 1440 = ([studyBlock], []) :=
  ⟨by rw [utilization_studyBlock]; norm_num,
    (reallocation_within_capacity_noop [studyBlock] 10 0 1440
      (by rw [utilization_studyBlock]; norm_num)).1⟩

/-- C9: durationInMinutes is the difference of the day-relative minute
offsets, ignores the day, second and millisecond fields, and is negative
for the block running from 23:00 to 01:00 of the next day even though its
end lies after its start in absolute time. -/
theorem durationInMinutes_clock_difference :
    (∀ s e : LocalTime, durationInMinutes s e =
      (timeToMinutes e : Int) - (timeToMinutes s : Int)) ∧
    (∀ (s e : LocalTime) (d1 s1 m1 d2 s2 m2 : Nat),
      durationInMinutes ⟨d1, s.hour, s.minute, s1, m1⟩ ⟨d2, e.hour, e.minute, s2, m2⟩ =
        durationInMinutes s e) ∧
    toMillis ⟨0, 23, 0, 0, 0⟩ < toMillis ⟨1, 1, 0, 0, 0⟩ ∧
    durationInMinutes ⟨0, 23, 0, 0, 0⟩ ⟨1, 1, 0, 0, 0⟩ = -1320 ∧
    durationInMinutes ⟨0, 23, 0, 0, 0⟩ ⟨1, 1, 0, 0, 0⟩ < 0 := by
  exact ⟨fun s e => rfl, fun s e d1 s1 m1 d2 s2 m2 => rfl, by decide, by decide, by decide⟩

/-- C10: normalizeEnergy clamps every rational into the unit interval,
returning 0 below it, 1 above it and the input inside it, and applying it
twice equals applying it once. -/
theorem normalizeEnergy_clamps_idempotent (x : ℚ) :
    0 ≤ normalizeEnergy x ∧ normalizeEnergy x ≤ 1 ∧
    (x < 0 → normalizeEnergy x = 0) ∧ (x > 1 → normalizeEnergy x = 1) ∧
    (0 ≤ x → x ≤ 1 → normalizeEnergy x = x) ∧
    normalizeEnergy (normalizeEnergy x) = normalizeEnergy x := by
  by_cases h1 : x < 0
  · have e1 : normalizeEnergy x = 0 := by simp [normalizeEnergy, h1]
    have e2 : normalizeEnergy (0 : ℚ) = 0 := by norm_num [normalizeEnergy]
    rw [e1, e2]
    exact ⟨le_refl 0, by norm_num, fun _ => rfl, fun h2 => by linarith,
      fun ha _ => absurd h1 (not_lt.mpr ha), rfl⟩
  · by_cases h2 : x > 1
    · have e1 : normalizeEnergy x = 1 := by simp [normalizeEnergy, if_neg h1, if_pos h2]
      have e2 : normalizeEnergy (1 : ℚ) = 1 := by norm_num [normalizeEnergy]
      rw [e1, e2]
      exact ⟨by norm_num, le_refl 1, fun h => by linarith, fun _ => rfl,
        fun _ hb => by linarith, rfl⟩
    · have e1 : normalizeEnergy x = x := by simp [normalizeEnergy, if_neg h1, if_neg h2]
      rw [e1]
      exact ⟨le_of_not_lt h1, le_of_not_lt h2, fun h => absurd h h1,
        fun h => absurd h h2, fun _ _ => rfl, e1⟩

/-- C10, witness: the clamping theorem applied below, above and inside the
unit interval. -/
theorem normalizeEnergy_clamps_idempotent_witness :
    normalizeEnergy (-2) = 0 ∧ normalizeEnergy 2 = 1 ∧
    normalizeEnergy (1/2) = 1/2 :=
  ⟨(normalizeEnergy_clamps_idempotent (-2)).2.2.1 (by norm_num),
    (normalizeEnergy_clamps_idempotent 2).2.2.2.1 (by norm_num),
    (normalizeEnergy_clamps_idempotent (1/2)).2.2.2.2.1 (by norm_num) (by norm_num)⟩

end Glados
